import Mathlib

/-!
Shallow embedding of the spreadsheet engine in
`src/src/components/Spreadsheet.jsx`: the `DependencyGraph` class, the
`FormulaParser` class (reference extraction, textual substitution,
tokenizer, shunting-yard conversion to RPN, RPN evaluation), and the
engine callbacks `getCellValue`, `evaluateCell`, `updateCell` of the
`Spreadsheet` component.

Modelling conventions:
* JS numbers are IEEE doubles; they are modelled here as exact
  rationals (`JsNum`, an unreduced `Int`/`Nat` pair).  Every value
  exercised by the claims is a small integer, on which the two agree.
  Non-finite doubles (`NaN`, `Infinity`) are modelled by `none` in
  `Option JsNum`: an arithmetic step whose JS result would be
  non-finite (division by zero, operand `undefined` from a stack
  underflow) produces `none`, which the formula parser turns into
  `#ERROR` exactly as `isNaN(result) || !isFinite(result)` does.
* JS `Map` is an insertion-ordered association list, JS `Set` an
  insertion-ordered duplicate-free list, so that enumeration order in
  the model matches enumeration order in the source.
* The React state closure: inside `updateCell`'s `setCells` updater the
  callbacks `getCellValue`/`evaluateCell` close over the `cells` value
  of the enclosing render, i.e. the state committed *before* the edit.
  `runEdit` therefore resolves every reference of the edit - including
  the recalculation of dependents - against the pre-edit cell table,
  while accumulating updates in a fresh table, exactly as the source
  does.
* Recursions that are loops in JS (`detectCircular`,
  `getAllDependents`, the recalculation `while` loop) are written with
  an explicit fuel parameter so that all definitions reduce inside the
  kernel; the fuel passed at each call site is larger than the
  measure that bounds the corresponding JS recursion, and the
  termination claim (C7) proves the recalculation loop's fuel is never
  exhausted.
-/

namespace Spreadsheet

/-- A cell identifier: column `A`-`J` (index 0-9) and row `1`-`10`
(index 0-9).  The universe of valid identifiers is the 100 cells of the
grid (`ROWS = 10`, `COLS = 10` in the source). -/
structure CellId where
  col : Fin 10
  row : Fin 10
deriving DecidableEq

def cellEquiv : CellId ≃ Fin 10 × Fin 10 where
  toFun c := (c.col, c.row)
  invFun p := ⟨p.1, p.2⟩
  left_inv := fun _ => rfl
  right_inv := fun _ => rfl

instance : Fintype CellId := Fintype.ofEquiv (Fin 10 × Fin 10) cellEquiv.symm

theorem cellId_card : Fintype.card CellId = 100 := by
  rw [Fintype.card_congr cellEquiv]
  simp

/-- Column letter for a column index, `'ABCDEFGHIJ'` in the source. -/
def colCharN : Nat → Char
  | 0 => 'A' | 1 => 'B' | 2 => 'C' | 3 => 'D' | 4 => 'E'
  | 5 => 'F' | 6 => 'G' | 7 => 'H' | 8 => 'I' | _ => 'J'

/-- Decimal digit character. -/
def digitChar : Nat → Char
  | 0 => '0' | 1 => '1' | 2 => '2' | 3 => '3' | 4 => '4'
  | 5 => '5' | 6 => '6' | 7 => '7' | 8 => '8' | _ => '9'

/-- The characters of a cell identifier, `` `${COL_LABELS[col]}${row}` ``. -/
def cellIdChars (c : CellId) : List Char :=
  colCharN c.col.val ::
    (if c.row.val = 9 then ['1', '0'] else [digitChar (c.row.val + 1)])

def cellIdStr (c : CellId) : String := String.mk (cellIdChars c)

/-- Whitespace as matched by the JS `\s` class (restricted to the ASCII
whitespace characters that can actually occur in this engine's
strings). -/
def jsWs (c : Char) : Bool :=
  c = ' ' || c = '\t' || c = '\n' || c = '\r'

/-- Characters allowed by the `validChars` regex
`^[0-9+\-*/().]+$` of `FormulaParser.parse`. -/
def validChar (c : Char) : Bool :=
  c.isDigit || c = '+' || c = '-' || c = '*' || c = '/' ||
    c = '(' || c = ')' || c = '.'

/-- Numeric value of a list of decimal digit characters. -/
def digitsVal (l : List Char) : Nat :=
  l.foldl (fun n c => n * 10 + (c.toNat - 48)) 0

/-- A JS number, modelled as an exact unreduced rational
`num / den` (see the header comment: IEEE doubles are modelled as
rationals; `den` is positive for every value the engine constructs). -/
structure JsNum where
  num : Int
  den : Nat
deriving DecidableEq

def JsNum.add (a b : JsNum) : JsNum :=
  ⟨a.num * (b.den : Int) + b.num * (a.den : Int), a.den * b.den⟩

def JsNum.sub (a b : JsNum) : JsNum :=
  ⟨a.num * (b.den : Int) - b.num * (a.den : Int), a.den * b.den⟩

def JsNum.mul (a b : JsNum) : JsNum :=
  ⟨a.num * b.num, a.den * b.den⟩

/-- Division `(a.num/a.den) / (b.num/b.den) = (a.num*b.den) / (a.den*b.num)`,
with the sign moved into the numerator so the denominator stays a `Nat`.
Callers check `b.num = 0` (JS division by zero is non-finite) before
calling. -/
def JsNum.div (a b : JsNum) : JsNum :=
  ⟨(if b.num < 0 then -a.num else a.num) * (b.den : Int), a.den * b.num.natAbs⟩

/-- Decimal digits of a natural number, most significant first
(fuel-structural so it reduces in the kernel; `n + 1` fuel always
suffices). -/
def natDigitsF : Nat → Nat → List Char
  | 0, _ => []
  | f + 1, n =>
    if n < 10 then [digitChar n]
    else natDigitsF f (n / 10) ++ [digitChar (n % 10)]

def natDigits (n : Nat) : List Char := natDigitsF (n + 1) n

/-- Fractional decimal digits of `r / d` by long division, truncated at
the fuel (JS prints the shortest decimal form of the double; every
value decided by a claim is an integer, where no fractional digits are
produced). -/
def fracDigitsF : Nat → Nat → Nat → List Char
  | 0, _, _ => []
  | f + 1, r, d =>
    if r = 0 then []
    else digitChar (r * 10 / d) :: fracDigitsF f (r * 10 % d) d

/-- Decimal character rendering of the non-negative rational `n / d`. -/
def natNumToChars (n d : Nat) : List Char :=
  natDigits (n / d) ++
    (if n % d = 0 then [] else '.' :: fracDigitsF 40 (n % d) d)

/-- Model of `result.value.toString()` for a numeric result. -/
def jsNumToString (q : JsNum) : String :=
  if q.num < 0 then String.mk ('-' :: natNumToChars q.num.natAbs q.den)
  else String.mk (natNumToChars q.num.toNat q.den)

/-- Model of JS `parseFloat`: skip leading whitespace, optional sign,
integer digits, optional fraction, optional exponent; `none` models
`NaN` (no digits at all).  (The `Infinity` literal accepted by JS
`parseFloat` is not modelled; no string the engine stores or that a
claim exercises is `Infinity`.) -/
def jsParseFloat (l : List Char) : Option JsNum :=
  let s1 := l.dropWhile jsWs
  let sgn : Int := match s1 with
    | '-' :: _ => -1
    | _ => 1
  let s2 := match s1 with
    | '+' :: t => t
    | '-' :: t => t
    | _ => s1
  let ds := s2.takeWhile Char.isDigit
  let r1 := s2.drop ds.length
  let fs := match r1 with
    | '.' :: u => u.takeWhile Char.isDigit
    | _ => []
  let r2 := match r1 with
    | '.' :: u => u.drop (u.takeWhile Char.isDigit).length
    | _ => r1
  if ds.isEmpty && fs.isEmpty then none
  else
    let mant : Nat := digitsVal (ds ++ fs)
    let den : Nat := 10 ^ fs.length
    let eneg : Bool := match r2 with
      | 'e' :: '-' :: _ => true
      | 'E' :: '-' :: _ => true
      | _ => false
    let edigs : List Char := match r2 with
      | 'e' :: '+' :: v => v.takeWhile Char.isDigit
      | 'e' :: '-' :: v => v.takeWhile Char.isDigit
      | 'e' :: v => v.takeWhile Char.isDigit
      | 'E' :: '+' :: v => v.takeWhile Char.isDigit
      | 'E' :: '-' :: v => v.takeWhile Char.isDigit
      | 'E' :: v => v.takeWhile Char.isDigit
      | _ => []
    if edigs.isEmpty then some ⟨sgn * (mant : Int), den⟩
    else if eneg then some ⟨sgn * (mant : Int), den * 10 ^ digitsVal edigs⟩
    else some ⟨sgn * (mant : Int) * ((10 : Int) ^ digitsVal edigs), den⟩

/-- Column letter recognised by the reference grammar `[A-J]`. -/
def colIdx : Char → Option (Fin 10)
  | 'A' => some 0 | 'B' => some 1 | 'C' => some 2 | 'D' => some 3
  | 'E' => some 4 | 'F' => some 5 | 'G' => some 6 | 'H' => some 7
  | 'I' => some 8 | 'J' => some 9
  | _ => none

/-- Row digit recognised by the `[1-9]` alternative of the grammar
(row index `digit - 1`). -/
def rowOfDigit : Char → Option (Fin 10)
  | '1' => some 0 | '2' => some 1 | '3' => some 2 | '4' => some 3
  | '5' => some 4 | '6' => some 5 | '7' => some 6 | '8' => some 7
  | '9' => some 8
  | _ => none

/-- Model of `expression.match(/[A-J](10|[1-9])/g)`: left-to-right,
non-overlapping matches; at each candidate the alternative `10` is
tried before `[1-9]` (JS alternation is ordered), scanning resumes
after a match, or one character later after a failed candidate. -/
def scanRefs : List Char → List CellId
  | [] => []
  | c :: rest =>
    match colIdx c with
    | none => scanRefs rest
    | some col =>
      match rest with
      | '1' :: '0' :: r2 => ⟨col, 9⟩ :: scanRefs r2
      | d :: r2 =>
        match rowOfDigit d with
        | some row => ⟨col, row⟩ :: scanRefs r2
        | none => scanRefs (d :: r2)
      | [] => []

/-- Whether `pat` is a prefix of `s`. -/
def startsWithChars : List Char → List Char → Bool
  | [], _ => true
  | _ :: _, [] => false
  | p :: ps, c :: cs => p = c && startsWithChars ps cs

/-- Model of `str.replace(new RegExp(pat, 'g'), repl)` for a literal
pattern: global, leftmost, non-overlapping replacement.  Fuel-
structural; `s.length` fuel always suffices because every step consumes
at least one character (patterns here are cell identifiers, never
empty; an empty pattern is modelled as the identity). -/
def replaceAllF : Nat → List Char → List Char → List Char → List Char
  | 0, _, _, s => s
  | _, [], _, s => s
  | f + 1, p :: ps, repl, s =>
    match s with
    | [] => []
    | c :: rest =>
      if startsWithChars (p :: ps) (c :: rest) then
        repl ++ replaceAllF f (p :: ps) repl ((c :: rest).drop (p :: ps).length)
      else c :: replaceAllF f (p :: ps) repl rest

def replaceAll (pat repl s : List Char) : List Char :=
  replaceAllF s.length pat repl s

/-- Model of JS `String.prototype.trim`. -/
def trimChars (l : List Char) : List Char :=
  ((l.dropWhile jsWs).reverse.dropWhile jsWs).reverse

/-- Model of `formula.startsWith('=')` (also covers the JS falsiness
check `!cellFormula`, since the empty string does not start with
`=`). -/
def isFormulaStr (s : String) : Bool :=
  match s.data with
  | '=' :: _ => true
  | _ => false

/-- Model of `formula.substring(1).trim()`. -/
def expressionOf (f : String) : List Char := trimChars (f.data.drop 1)

/-- Tokens of the expression evaluator: a number literal (`none` models
the `NaN` that JS `parseFloat` yields for a digit run like `.`), or a
single operator / parenthesis character. -/
inductive Token where
  | num (v : Option JsNum)
  | op (c : Char)
deriving DecidableEq

/-- Characters accumulated into a number token (`'0123456789.'`). -/
def isNumChar (c : Char) : Bool := c.isDigit || c = '.'

/-- Characters emitted as operator tokens (`'+-*/()'`). -/
def isOpChar (c : Char) : Bool :=
  c = '+' || c = '-' || c = '*' || c = '/' || c = '(' || c = ')'

/-- Model of `FormulaParser.tokenize`: accumulate digit/`.` runs into
one numeric token (converted with `parseFloat`), emit each operator
character as its own token, drop anything else. -/
def tokenizeGo : List Char → List Char → List Token
  | [], acc => if acc.isEmpty then [] else [Token.num (jsParseFloat acc)]
  | c :: rest, acc =>
    if isNumChar c then tokenizeGo rest (acc ++ [c])
    else
      (if acc.isEmpty then [] else [Token.num (jsParseFloat acc)]) ++
        (if isOpChar c then [Token.op c] else []) ++ tokenizeGo rest []

def tokenize (l : List Char) : List Token := tokenizeGo l []

/-- The `precedence` table of `FormulaParser.calculate` (only ever
queried at `+ - * /`). -/
def prec : Char → Nat
  | '+' => 1 | '-' => 1 | '*' => 2 | '/' => 2 | _ => 0

/-- Pop operators with precedence at least that of `t`, stopping at
`'('` — the inner `while` of the shunting-yard loop.  Returns the
popped operators (top first) and the remaining stack. -/
def popGePrec (t : Char) : List Char → List Char × List Char
  | [] => ([], [])
  | o :: os =>
    if o ≠ '(' ∧ prec t ≤ prec o then
      let p := popGePrec t os
      (o :: p.1, p.2)
    else ([], o :: os)

/-- Pop operators until `'('`, dropping the `'('` itself — the `')'`
case of the shunting-yard loop (popping an empty stack is a no-op,
as in JS). -/
def popToParen : List Char → List Char × List Char
  | [] => ([], [])
  | o :: os =>
    if o = '(' then ([], os)
    else
      let p := popToParen os
      (o :: p.1, p.2)

/-- Infix-to-RPN conversion of `FormulaParser.calculate` (the first
`forEach` plus the final flush, which pushes every remaining stack
entry into the output — including any unmatched `'('`). -/
def rpnGo : List Token → List Char → List Token
  | [], ops => ops.map Token.op
  | Token.num v :: ts, ops => Token.num v :: rpnGo ts ops
  | Token.op c :: ts, ops =>
    if c = '(' then rpnGo ts ('(' :: ops)
    else if c = ')' then
      let p := popToParen ops
      p.1.map Token.op ++ rpnGo ts p.2
    else
      let p := popGePrec c ops
      p.1.map Token.op ++ rpnGo ts (c :: p.2)

/-- One RPN operator application.  `none` operands model
`undefined`/`NaN` (stack underflow) and propagate; division by zero
produces `none` (JS produces a non-finite double there).  In the model
a non-finite intermediate is absorbing, whereas a JS infinity can
cancel back to a finite value in exotic expressions such as
`1/(1/0)`; both still only arise through division, which no claim's
formula performs.  A `'('` reaching this switch hits the
`default: throw` branch, modelled as `Except.error`. -/
def applyOp (c : Char) (a b : Option JsNum) : Except Unit (Option JsNum) :=
  match c with
  | '+' => .ok (match a, b with
      | some x, some y => some (x.add y)
      | _, _ => none)
  | '-' => .ok (match a, b with
      | some x, some y => some (x.sub y)
      | _, _ => none)
  | '*' => .ok (match a, b with
      | some x, some y => some (x.mul y)
      | _, _ => none)
  | '/' => .ok (match a, b with
      | some x, some y => if y.num = 0 then none else some (x.div y)
      | _, _ => none)
  | _ => .error ()

/-- RPN evaluation of `FormulaParser.calculate`: operands push;
operators pop `b` then `a` (popping an empty JS array yields
`undefined`, modelled `none`, with the array unchanged) and push
`a <op> b`.  The final result is `stack[0]` — the *bottom* of the
stack — or `undefined` when the stack is empty. -/
def evalRPNGo : List Token → List (Option JsNum) → Except Unit (Option JsNum)
  | [], stack => .ok (stack.getLast?.getD none)
  | Token.num v :: ts, stack => evalRPNGo ts (v :: stack)
  | Token.op c :: ts, stack =>
    match applyOp c (stack.tail.head?.getD none) (stack.head?.getD none) with
    | .error e => .error e
    | .ok v => evalRPNGo ts (v :: stack.tail.tail)

/-- Model of `FormulaParser.safeEvaluate`: strip invalid characters
(a no-op after the caller's validation, kept for fidelity), tokenize,
convert to RPN and evaluate.  `Except.error` marks the `catch` branch
whose `Function(...)` fallback always throws a `SyntaxError` for the
validated character set (it is reached only when an unmatched `'('`
survives into the RPN output, making the wrapped source text
unbalanced). -/
def safeEvaluate (l : List Char) : Except Unit (Option JsNum) :=
  evalRPNGo (rpnGo (tokenize (l.filter validChar)) []) []

/-- The `value` field of `FormulaParser.parse`'s result: a string (the
literal text of a non-formula input, or the `#ERROR` sentinel) or a
number. -/
inductive JsVal where
  | s (v : String)
  | n (v : JsNum)
deriving DecidableEq

/-- The `cellRefs.forEach` substitution loop of `FormulaParser.parse`:
resolve each reference in match order, throwing
`Invalid reference: <ref>` at the first unresolved one
(`getCellValue` never returns `NaN`, so `value === undefined` is the
only failing case), and replace every occurrence of the reference's
text by the resolved value's string form. -/
def substRefs (resolve : CellId → Option JsNum) :
    List CellId → List Char → Except String (List Char)
  | [], e => .ok e
  | r :: rs, e =>
    match resolve r with
    | none => .error ("Invalid reference: " ++ cellIdStr r)
    | some v =>
      substRefs resolve rs
        (replaceAll (cellIdStr r).data (jsNumToString v).data e)

/-- Model of `FormulaParser.parse`.  Note on two details of the source:
the `validChars` regex `^[0-9+\-*/().]+$` rejects the *empty* string
(the `+` quantifier), so the subsequent `Empty expression after
replacements` check is unreachable (kept for fidelity); and the message
of the `Function` fallback's `SyntaxError` is engine-specific, modelled
here by the fixed string `"Invalid expression"` (no claim depends on
it). -/
def parse (formula : String) (resolve : CellId → Option JsNum) :
    JsVal × Option String :=
  if isFormulaStr formula = false then (JsVal.s formula, none)
  else if (expressionOf formula).isEmpty then
    (JsVal.s "#ERROR", some "Empty formula")
  else
    match substRefs resolve (scanRefs (expressionOf formula))
        (expressionOf formula) with
    | Except.error msg => (JsVal.s "#ERROR", some msg)
    | Except.ok e1 =>
      if (e1.filter (fun c => !jsWs c)).isEmpty ||
          (e1.filter (fun c => !jsWs c)).any (fun c => !validChar c) then
        (JsVal.s "#ERROR", some "Invalid characters in formula")
      else if (e1.filter (fun c => !jsWs c)).isEmpty then
        (JsVal.s "#ERROR", some "Empty expression after replacements")
      else
        match safeEvaluate (e1.filter (fun c => !jsWs c)) with
        | Except.error _ => (JsVal.s "#ERROR", some "Invalid expression")
        | Except.ok none => (JsVal.s "#ERROR", some "Invalid result")
        | Except.ok (some v) => (JsVal.n v, none)

/-- The `DependencyGraph` class: `graph` maps a precedent to the set of
its dependents, `reverseGraph` maps a dependent to the set of its
precedents.  Both JS `Map`s are modelled as insertion-ordered
association lists, the JS `Set` values as insertion-ordered
duplicate-free lists. -/
structure DepGraph where
  graph : List (CellId × List CellId)
  reverseGraph : List (CellId × List CellId)
deriving DecidableEq

/-- JS `Map.get` (keys are unique by construction). -/
def mapGet : List (CellId × List CellId) → CellId → Option (List CellId)
  | [], _ => none
  | p :: ps, k => if p.1 = k then some p.2 else mapGet ps k

/-- JS `Map.set`: overwrite in place, or append a new entry. -/
def mapSet : List (CellId × List CellId) → CellId → List CellId →
    List (CellId × List CellId)
  | [], k, v => [(k, v)]
  | p :: ps, k, v => if p.1 = k then (k, v) :: ps else p :: mapSet ps k v

/-- JS `Map.delete` (keys are unique, so dropping every entry with the
key equals dropping the one entry). -/
def mapDelete : List (CellId × List CellId) → CellId →
    List (CellId × List CellId)
  | [], _ => []
  | p :: ps, k => if p.1 = k then mapDelete ps k else p :: mapDelete ps k

/-- JS `Set.add` on the insertion-ordered list model. -/
def setAddList (s : List CellId) (x : CellId) : List CellId :=
  if x ∈ s then s else s ++ [x]

/-- `DependencyGraph.addDependency(source, target)`: records that the
dependent `source` reads the precedent `target`. -/
def addDependency (g : DepGraph) (source target : CellId) : DepGraph :=
  let fwd := match mapGet g.graph target with
    | none => mapSet g.graph target [source]
    | some s => mapSet g.graph target (setAddList s source)
  let rev := match mapGet g.reverseGraph source with
    | none => mapSet g.reverseGraph source [target]
    | some s => mapSet g.reverseGraph source (setAddList s target)
  ⟨fwd, rev⟩

/-- `DependencyGraph.removeDependencies(cell)`: delete `cell` from the
dependents set of each of its precedents (the optional chain
`graph.get(dep)?.delete(cell)` is a no-op for a missing entry), then
delete `cell`'s own reverse entry. -/
def removeDependencies (g : DepGraph) (cell : CellId) : DepGraph :=
  match mapGet g.reverseGraph cell with
  | none => g
  | some deps =>
    let fwd := deps.foldl (fun gr dep =>
      match mapGet gr dep with
      | none => gr
      | some s => mapSet gr dep (s.filter (fun x => decide (x ≠ cell)))) g.graph
    ⟨fwd, mapDelete g.reverseGraph cell⟩

/-- `DependencyGraph.getDependents(cell)` (`Array.from` of the stored
set, insertion order). -/
def getDependents (g : DepGraph) (cell : CellId) : List CellId :=
  (mapGet g.graph cell).getD []

/-- The precedents of a cell, `reverseGraph.get(startCell) || new Set()`. -/
def precedentsOf (g : DepGraph) (cell : CellId) : List CellId :=
  (mapGet g.reverseGraph cell).getD []

/-- `DependencyGraph.detectCircular(startCell, visited)`: walk backward
through precedent edges; each branch recurses on `new Set(visited)`,
i.e. a copy, modelled by the pure `Finset`.  Fuel-structural: each
recursive call inserts a fresh cell into `visited`, so the recursion
depth is bounded by `100 - visited.card` and fuel `101` is never
exhausted from an empty `visited`. -/
def detectCircularF (g : DepGraph) : Nat → CellId → Finset CellId → Bool
  | 0, _, _ => true
  | f + 1, startCell, visited =>
    if startCell ∈ visited then true
    else (precedentsOf g startCell).any
      (fun dep => detectCircularF g f dep (insert startCell visited))

/-- Total length of the stored dependents lists, used to size the fuel
of the transitive-dependents walk. -/
def graphSize (g : DepGraph) : Nat :=
  (g.graph.map (fun p => p.2.length)).sum

/-- Worklist form of `DependencyGraph.getAllDependents`'s recursion
(the JS `forEach` recurses into a cell's dependents immediately after
adding it, before the remaining siblings — a preorder depth-first walk
sharing one result set, which is exactly this stack discipline).
Each step either drops the head (already collected) or collects a new
cell, so `result` stays duplicate-free; the fuel below is larger than
the measure `stack.length + (graphSize g + 1) * (100 - result.card)`
that strictly decreases at every step. -/
def dfsF (g : DepGraph) : Nat → List CellId → List CellId → List CellId
  | 0, _, result => result
  | _ + 1, [], result => result
  | f + 1, d :: rest, result =>
    if d ∈ result then dfsF g f rest result
    else dfsF g f (getDependents g d ++ rest) (result ++ [d])

/-- `DependencyGraph.getAllDependents(cell)`. -/
def getAllDependents (g : DepGraph) (cell : CellId) : List CellId :=
  let start := getDependents g cell
  dfsF g (start.length + (graphSize g + 1) * 101) start []

/-- A cell record, `{ rawValue, formula, display, error }` in the
source (`rawInput` / `displayValue` / `errorState` in the spec's
vocabulary). -/
structure CellRec where
  rawValue : String
  formula : String
  display : String
  error : Option String
deriving DecidableEq

/-- The full engine state: the cell table plus the mutable
`dependencyGraph` ref. -/
structure EngineState where
  cells : CellId → CellRec
  graph : DepGraph

/-- Model of `getCellValue`: read a cell's current `display`, refuse
the error sentinels, and `parseFloat` it (`NaN` becomes `undefined`,
i.e. `none`).  Every valid identifier has a record, so the
`if (!cell) return undefined` guard of the source cannot fire. -/
def mkLookup (cs : CellId → CellRec) : CellId → Option JsNum := fun id =>
  let d := (cs id).display
  if d = "#CIRCULAR" ∨ d = "#ERROR" then none
  else jsParseFloat d.data

/-- The result record of `evaluateCell`. -/
structure EvalOut where
  display : String
  formula : String
  error : Option String
deriving DecidableEq

/-- Re-adding a cell's edges: one `addDependency(cellId, ref)` per
matched reference token, in match order. -/
def addRefEdges (g : DepGraph) (cellId : CellId) (refs : List CellId) :
    DepGraph :=
  refs.foldl (fun h r => addDependency h cellId r) g

/-- The graph as `evaluateCell` leaves it for a formula cell: stale
edges removed, then one edge per reference token of the formula text
(the source matches the regex on the whole `cellFormula`, leading `=`
included). -/
def rebuildEdges (g : DepGraph) (cellId : CellId) (f : String) : DepGraph :=
  addRefEdges (removeDependencies g cellId) cellId (scanRefs f.data)

/-- Model of `evaluateCell(cellId, formula)`: drop the cell's stale
precedent edges; a non-formula (or empty) input displays verbatim with
no error; otherwise re-add edges, check for a cycle (which overrides
everything), then compile.  Returns the updated graph (the mutated
`dependencyGraph.current`) together with the result record. -/
def evaluateCell (g : DepGraph) (resolve : CellId → Option JsNum)
    (cellId : CellId) (f : String) : DepGraph × EvalOut :=
  if isFormulaStr f = false then
    (removeDependencies g cellId, ⟨f, f, none⟩)
  else if detectCircularF (rebuildEdges g cellId f) 101 cellId ∅ then
    (rebuildEdges g cellId f,
      ⟨"#CIRCULAR", f, some "Circular reference detected"⟩)
  else
    match parse f resolve with
    | (JsVal.s s, err) =>
      if s = "#ERROR" then (rebuildEdges g cellId f, ⟨"#ERROR", f, err⟩)
      else (rebuildEdges g cellId f, ⟨s, f, none⟩)
    | (JsVal.n v, _) =>
      (rebuildEdges g cellId f, ⟨jsNumToString v, f, none⟩)

/-- Output of the recalculation loop: the updated cell table and graph,
the cells that were re-evaluated (in evaluation order), and whether the
loop drained its queue (`completed = false` only on fuel exhaustion,
which claim C7 proves unreachable at `runEdit`'s fuel). -/
structure LoopOut where
  cells : CellId → CellRec
  graph : DepGraph
  processed : List CellId
  completed : Bool

/-- The `while (recalcQueue.length > 0)` loop of `updateCell`:
dequeue; skip cells already in `visited`; otherwise mark visited and,
if the cell has a non-empty `formula`, re-evaluate it against the
*pre-edit* lookup (`resolve` is the closure over the previous render's
`cells`), overwrite its `display`/`error`, and enqueue its transitive
dependents that are not yet visited. -/
def recalcLoopF (resolve : CellId → Option JsNum) :
    Nat → List CellId → Finset CellId → (CellId → CellRec) → DepGraph →
    List CellId → LoopOut
  | 0, q, _, cs, g, acc => ⟨cs, g, acc, q.isEmpty⟩
  | _ + 1, [], _, cs, g, acc => ⟨cs, g, acc, true⟩
  | f + 1, d :: rest, visited, cs, g, acc =>
    if d ∈ visited then recalcLoopF resolve f rest visited cs g acc
    else if (cs d).formula = "" then
      recalcLoopF resolve f rest (insert d visited) cs g acc
    else
      recalcLoopF resolve f
        (rest ++
          (getAllDependents (evaluateCell g resolve d (cs d).formula).1 d).filter
            (fun x => decide (x ∉ insert d visited)))
        (insert d visited)
        (Function.update cs d
          ⟨(cs d).rawValue, (cs d).formula,
            (evaluateCell g resolve d (cs d).formula).2.display,
            (evaluateCell g resolve d (cs d).formula).2.error⟩)
        (evaluateCell g resolve d (cs d).formula).1
        (acc ++ [d])

/-- Output of one `updateCell` call. -/
structure EditOut where
  state : EngineState
  processed : List CellId
  completed : Bool

/-- Model of one `updateCell(cellId, rawValue)` call: evaluate the
edited cell (rebuilding its edges), commit its record, then run the
recalculation loop over its transitive dependents with the visited set
seeded `{cellId}`.  All lookups of this call go through `resolve`,
the closure over the pre-edit cell table (see the header comment on
the React state closure). -/
def runEdit (s : EngineState) (cellId : CellId) (rawValue : String) :
    EditOut :=
  let resolve := mkLookup s.cells
  let er := evaluateCell s.graph resolve cellId rawValue
  let cs1 := Function.update s.cells cellId
    ⟨rawValue, er.2.formula, er.2.display, er.2.error⟩
  let deps := getAllDependents er.1 cellId
  let out := recalcLoopF resolve (deps.length + 101 * 101) deps
    {cellId} cs1 er.1 []
  ⟨⟨out.cells, out.graph⟩, out.processed, out.completed⟩

/-- `applyEdit` of the spec: the state after one `updateCell` call. -/
def applyEdit (s : EngineState) (cellId : CellId) (rawValue : String) :
    EngineState :=
  (runEdit s cellId rawValue).state

/-- The initial state: all 100 cells empty, the graph empty. -/
def initState : EngineState :=
  ⟨fun _ => ⟨"", "", "", none⟩, ⟨[], []⟩⟩

/-- States reachable through any sequence of `applyEdit` calls. -/
inductive Reachable : EngineState → Prop where
  | init : Reachable initState
  | step {s : EngineState} (c : CellId) (r : String) :
      Reachable s → Reachable (applyEdit s c r)

/-- The set (insertion-ordered, duplicate-free list) of reference
tokens a formula contributes as edges: the regex matches of the
formula text for a `=`-input, nothing for a literal — exactly what
`evaluateCell` registers. -/
def formulaRefs (f : String) : List CellId :=
  if isFormulaStr f then (scanRefs f.data).foldl setAddList [] else []

/-- Concrete identifiers used by the claims. -/
def cA1 : CellId := ⟨0, 0⟩

def cB1 : CellId := ⟨1, 0⟩

def cB2 : CellId := ⟨1, 1⟩

def cB10 : CellId := ⟨1, 9⟩

def cC1 : CellId := ⟨2, 0⟩

/-! Helper lemmas: shapes of the strings produced for numeric results,
the case analysis of `parse` on formula inputs, and the record / graph
effects of `evaluateCell`. -/

theorem digitChar_ne_hash (n : Nat) : digitChar n ≠ '#' := by
  unfold digitChar
  split <;> decide

theorem natDigitsF_mem (f : Nat) :
    ∀ n c, c ∈ natDigitsF f n → ∃ k, c = digitChar k := by
  induction f with
  | zero => intro n c h; simp [natDigitsF] at h
  | succ f ih =>
    intro n c h
    unfold natDigitsF at h
    split at h
    · simp at h
      exact ⟨n, h⟩
    · rcases List.mem_append.mp h with h1 | h1
      · exact ih _ _ h1
      · simp at h1
        exact ⟨n % 10, h1⟩

theorem natDigits_ne_nil (n : Nat) : natDigits n ≠ [] := by
  unfold natDigits natDigitsF
  split <;> simp

theorem natNumToChars_head (n d : Nat) :
    ∃ c t k, natNumToChars n d = c :: t ∧ c = digitChar k := by
  obtain ⟨c, t, h⟩ := List.exists_cons_of_ne_nil (natDigits_ne_nil (n / d))
  have hc : c ∈ natDigitsF (n / d + 1) (n / d) := by
    unfold natDigits at h
    rw [h]
    exact List.mem_cons_self _ _
  obtain ⟨k, hk⟩ := natDigitsF_mem _ _ _ hc
  refine ⟨c, t ++ (if n % d = 0 then [] else '.' :: fracDigitsF 40 (n % d) d),
    k, ?_, hk⟩
  unfold natNumToChars
  rw [h]
  simp

theorem string_mk_ne_of_head (c : Char) (l : List Char) (s : String)
    (hc : s.data.head? = some '#') (h : c ≠ '#') : String.mk (c :: l) ≠ s := by
  intro he
  rw [← he] at hc
  have : (c :: l).head? = some '#' := hc
  simp at this
  exact h this

theorem jsNumToString_ne_err (q : JsNum) : jsNumToString q ≠ "#ERROR" := by
  unfold jsNumToString
  split
  · exact string_mk_ne_of_head _ _ _ rfl (by decide)
  · obtain ⟨c, t, k, h, hk⟩ := natNumToChars_head q.num.toNat q.den
    rw [h]
    exact string_mk_ne_of_head _ _ _ rfl (hk ▸ digitChar_ne_hash k)

theorem jsNumToString_ne_circ (q : JsNum) : jsNumToString q ≠ "#CIRCULAR" := by
  unfold jsNumToString
  split
  · exact string_mk_ne_of_head _ _ _ rfl (by decide)
  · obtain ⟨c, t, k, h, hk⟩ := natNumToChars_head q.num.toNat q.den
    rw [h]
    exact string_mk_ne_of_head _ _ _ rfl (hk ▸ digitChar_ne_hash k)

/-- On a formula input, `parse` yields either the `#ERROR` sentinel
with a reason, or a number with no error. -/
theorem parse_formula_cases (f : String) (resolve : CellId → Option JsNum)
    (hf : isFormulaStr f = true) :
    (∃ err, parse f resolve = (JsVal.s "#ERROR", some err)) ∨
    (∃ v, parse f resolve = (JsVal.n v, none)) := by
  unfold parse
  rw [if_neg (by simp [hf])]
  split
  · exact Or.inl ⟨_, rfl⟩
  · split
    · exact Or.inl ⟨_, rfl⟩
    · split
      · exact Or.inl ⟨_, rfl⟩
      · split
        · exact Or.inl ⟨_, rfl⟩
        · split
          · exact Or.inl ⟨_, rfl⟩
          · exact Or.inl ⟨_, rfl⟩
          · exact Or.inr ⟨_, rfl⟩

/-- On a formula input, the `value` component of `parse` is never a
string other than the `#ERROR` sentinel. -/
theorem parse_formula_pair (f : String) (resolve : CellId → Option JsNum)
    (hf : isFormulaStr f = true) (s : String) (err : Option String)
    (h : parse f resolve = (JsVal.s s, err)) :
    s = "#ERROR" ∧ err ≠ none := by
  rcases parse_formula_cases f resolve hf with ⟨e2, hp⟩ | ⟨v, hp⟩
  · rw [h] at hp
    simp only [Prod.mk.injEq, JsVal.s.injEq] at hp
    exact ⟨hp.1, by rw [hp.2]; simp⟩
  · rw [h] at hp
    simp at hp

/-- The graph `evaluateCell` returns: stale edges dropped, and — for a
formula — one edge per reference token. -/
theorem evaluateCell_graph (g : DepGraph) (resolve : CellId → Option JsNum)
    (c : CellId) (f : String) :
    (evaluateCell g resolve c f).1 =
      if isFormulaStr f = true then rebuildEdges g c f
      else removeDependencies g c := by
  unfold evaluateCell
  split
  · rename_i hf
    rw [if_neg (by simp [hf])]
  · rename_i hf
    conv_rhs => rw [if_pos (show isFormulaStr f = true by simpa using hf)]
    split
    · rfl
    · split
      · split <;> rfl
      · rfl

/-- The record part of `evaluateCell`, as a standalone expression: the
non-formula echo, the circular override, the compile error, or the
numeric display. -/
theorem evaluateCell_out (g : DepGraph) (resolve : CellId → Option JsNum)
    (c : CellId) (f : String) :
    (evaluateCell g resolve c f).2 =
      if isFormulaStr f = false then ⟨f, f, none⟩
      else if detectCircularF (rebuildEdges g c f) 101 c ∅ then
        ⟨"#CIRCULAR", f, some "Circular reference detected"⟩
      else
        match parse f resolve with
        | (JsVal.s s, err) =>
          if s = "#ERROR" then ⟨"#ERROR", f, err⟩ else ⟨s, f, none⟩
        | (JsVal.n v, _) => ⟨jsNumToString v, f, none⟩ := by
  unfold evaluateCell
  split
  · rfl
  · split
    · rfl
    · split
      · split <;> rfl
      · rfl

/-- The record `evaluateCell` returns keeps the formula it was given,
and its `error` is set exactly when the formula starts with `=` and
the display is a sentinel. -/
theorem evaluateCell_shape (g : DepGraph) (resolve : CellId → Option JsNum)
    (c : CellId) (f : String) :
    (evaluateCell g resolve c f).2.formula = f ∧
      ((evaluateCell g resolve c f).2.error ≠ none ↔
        (isFormulaStr f = true ∧
          ((evaluateCell g resolve c f).2.display = "#ERROR" ∨
            (evaluateCell g resolve c f).2.display = "#CIRCULAR"))) := by
  unfold evaluateCell
  split
  · rename_i hf
    simp [hf]
  · rename_i hf
    have hf' : isFormulaStr f = true := by simpa using hf
    split
    · simp [hf']
    · split
      · rename_i s err heq
        obtain ⟨hs, he⟩ := parse_formula_pair f resolve hf' s err heq
        subst hs
        rw [if_pos rfl]
        simp [hf', he]
      · simp [hf', jsNumToString_ne_err, jsNumToString_ne_circ]

/-! Lemmas on the map / graph primitives. -/

theorem mapGet_mapSet_self (m : List (CellId × List CellId)) (k : CellId)
    (v : List CellId) : mapGet (mapSet m k v) k = some v := by
  induction m with
  | nil => simp [mapSet, mapGet]
  | cons p ps ih =>
    by_cases h : p.1 = k
    · simp [mapSet, h, mapGet]
    · simp [mapSet, h, mapGet, ih]

theorem mapGet_mapSet_ne (m : List (CellId × List CellId)) (k : CellId)
    (v : List CellId) (y : CellId) (h : y ≠ k) :
    mapGet (mapSet m k v) y = mapGet m y := by
  have hky : ¬k = y := fun he => h he.symm
  induction m with
  | nil => simp [mapSet, mapGet, hky]
  | cons p ps ih =>
    by_cases hp : p.1 = k
    · have hy : ¬p.1 = y := by
        rw [hp]
        exact hky
      simp [mapSet, mapGet, hp, hky, hy]
    · by_cases hy : p.1 = y
      · simp [mapSet, hp, mapGet, hy, h]
      · simp [mapSet, hp, mapGet, hy, ih]

theorem mapGet_mapDelete_self (m : List (CellId × List CellId)) (k : CellId) :
    mapGet (mapDelete m k) k = none := by
  induction m with
  | nil => simp [mapDelete, mapGet]
  | cons p ps ih =>
    by_cases h : p.1 = k
    · simpa [mapDelete, h] using ih
    · simpa [mapDelete, mapGet, h] using ih

theorem mapGet_mapDelete_ne (m : List (CellId × List CellId)) (k : CellId)
    (y : CellId) (h : y ≠ k) : mapGet (mapDelete m k) y = mapGet m y := by
  have hky : ¬k = y := fun he => h he.symm
  induction m with
  | nil => simp [mapDelete, mapGet]
  | cons p ps ih =>
    by_cases hp : p.1 = k
    · have hy : ¬p.1 = y := by
        rw [hp]
        exact hky
      simp [mapDelete, hp, mapGet, hy, hky, ih]
    · by_cases hy : p.1 = y
      · simp [mapDelete, hp, mapGet, hy, h]
      · simp [mapDelete, hp, mapGet, hy, ih]

theorem precedentsOf_removeDependencies_self (g : DepGraph) (c : CellId) :
    precedentsOf (removeDependencies g c) c = [] := by
  unfold removeDependencies
  split
  · rename_i h
    simp [precedentsOf, h]
  · simp [precedentsOf, mapGet_mapDelete_self]

theorem precedentsOf_removeDependencies_ne (g : DepGraph) (c y : CellId)
    (h : y ≠ c) :
    precedentsOf (removeDependencies g c) y = precedentsOf g y := by
  unfold removeDependencies
  split
  · rfl
  · simp [precedentsOf, mapGet_mapDelete_ne _ _ _ h]

theorem precedentsOf_addDependency_self (g : DepGraph) (s t : CellId) :
    precedentsOf (addDependency g s t) s = setAddList (precedentsOf g s) t := by
  unfold addDependency precedentsOf
  cases h : mapGet g.reverseGraph s with
  | none => simp [h, mapGet_mapSet_self, setAddList]
  | some l => simp [h, mapGet_mapSet_self]

theorem precedentsOf_addDependency_ne (g : DepGraph) (s t y : CellId)
    (h : y ≠ s) :
    precedentsOf (addDependency g s t) y = precedentsOf g y := by
  unfold addDependency precedentsOf
  cases hm : mapGet g.reverseGraph s <;>
    simp [hm, mapGet_mapSet_ne _ _ _ _ h]

theorem precedentsOf_addRefEdges_self (c : CellId) (refs : List CellId) :
    ∀ g, precedentsOf (addRefEdges g c refs) c =
      refs.foldl setAddList (precedentsOf g c) := by
  induction refs with
  | nil => intro g; rfl
  | cons r rs ih =>
    intro g
    show precedentsOf (addRefEdges (addDependency g c r) c rs) c = _
    rw [ih, precedentsOf_addDependency_self]
    rfl

theorem precedentsOf_addRefEdges_ne (c : CellId) (refs : List CellId)
    (y : CellId) (h : y ≠ c) :
    ∀ g, precedentsOf (addRefEdges g c refs) y = precedentsOf g y := by
  induction refs with
  | nil => intro g; rfl
  | cons r rs ih =>
    intro g
    show precedentsOf (addRefEdges (addDependency g c r) c rs) y = _
    rw [ih, precedentsOf_addDependency_ne _ _ _ _ h]

/-- After `evaluateCell`, the evaluated cell's precedent set is exactly
the reference tokens of its formula. -/
theorem evaluateCell_precedents_self (g : DepGraph)
    (resolve : CellId → Option JsNum) (c : CellId) (f : String) :
    precedentsOf (evaluateCell g resolve c f).1 c = formulaRefs f := by
  rw [evaluateCell_graph]
  split
  · rename_i hf
    unfold rebuildEdges formulaRefs
    rw [hf, if_pos rfl, precedentsOf_addRefEdges_self,
      precedentsOf_removeDependencies_self]
  · rename_i hf
    unfold formulaRefs
    rw [if_neg hf, precedentsOf_removeDependencies_self]

/-- `evaluateCell` leaves every other cell's precedent set untouched. -/
theorem evaluateCell_precedents_ne (g : DepGraph)
    (resolve : CellId → Option JsNum) (c : CellId) (f : String) (y : CellId)
    (h : y ≠ c) :
    precedentsOf (evaluateCell g resolve c f).1 y = precedentsOf g y := by
  rw [evaluateCell_graph]
  split
  · unfold rebuildEdges
    rw [precedentsOf_addRefEdges_ne _ _ _ h,
      precedentsOf_removeDependencies_ne _ _ _ h]
  · rw [precedentsOf_removeDependencies_ne _ _ _ h]

/-! State invariants maintained by every edit: the record-level
error/display/formula relation, and the exactness of each cell's
precedent edge set. -/

/-- Record invariant: `error` is set exactly when the record's formula
is a `=`-formula and its display is a sentinel. -/
def RecInv (r : CellRec) : Prop :=
  r.error ≠ none ↔
    (isFormulaStr r.formula = true ∧
      (r.display = "#ERROR" ∨ r.display = "#CIRCULAR"))

theorem recalcLoopF_recInv (resolve : CellId → Option JsNum) :
    ∀ (fuel : Nat) (q : List CellId) (visited : Finset CellId)
      (cs : CellId → CellRec) (g : DepGraph) (acc : List CellId),
      (∀ x, RecInv (cs x)) →
      ∀ x, RecInv ((recalcLoopF resolve fuel q visited cs g acc).cells x) := by
  intro fuel
  induction fuel with
  | zero => intro q visited cs g acc h x; exact h x
  | succ f ih =>
    intro q visited cs g acc h x
    match q with
    | [] => exact h x
    | d :: rest =>
      simp only [recalcLoopF]
      split
      · exact ih _ _ _ _ _ h x
      · split
        · exact ih _ _ _ _ _ h x
        · refine ih _ _ _ _ _ (fun y => ?_) x
          by_cases hy : y = d
          · subst hy
            rw [Function.update_same]
            exact (evaluateCell_shape g resolve y (cs y).formula).2
          · rw [Function.update_noteq hy]
            exact h y

theorem recalcLoopF_graphInv (resolve : CellId → Option JsNum) :
    ∀ (fuel : Nat) (q : List CellId) (visited : Finset CellId)
      (cs : CellId → CellRec) (g : DepGraph) (acc : List CellId),
      (∀ x, precedentsOf g x = formulaRefs ((cs x).formula)) →
      ∀ x, precedentsOf (recalcLoopF resolve fuel q visited cs g acc).graph x =
        formulaRefs
          (((recalcLoopF resolve fuel q visited cs g acc).cells x).formula) := by
  intro fuel
  induction fuel with
  | zero => intro q visited cs g acc h x; exact h x
  | succ f ih =>
    intro q visited cs g acc h x
    match q with
    | [] => exact h x
    | d :: rest =>
      simp only [recalcLoopF]
      split
      · exact ih _ _ _ _ _ h x
      · split
        · exact ih _ _ _ _ _ h x
        · refine ih _ _ _ _ _ (fun y => ?_) x
          by_cases hy : y = d
          · subst hy
            rw [Function.update_same, evaluateCell_precedents_self]
          · rw [Function.update_noteq hy,
              evaluateCell_precedents_ne _ _ _ _ _ hy]
            exact h y

theorem applyEdit_recInv (s : EngineState) (c : CellId) (r : String)
    (h : ∀ x, RecInv (s.cells x)) :
    ∀ x, RecInv ((applyEdit s c r).cells x) := by
  intro x
  simp only [applyEdit, runEdit]
  refine recalcLoopF_recInv _ _ _ _ _ _ _ (fun y => ?_) x
  by_cases hy : y = c
  · subst hy
    rw [Function.update_same]
    have hs := evaluateCell_shape s.graph (mkLookup s.cells) y r
    unfold RecInv
    simp only
    rw [hs.1]
    exact hs.2
  · rw [Function.update_noteq hy]
    exact h y

theorem applyEdit_graphInv (s : EngineState) (c : CellId) (r : String)
    (h : ∀ x, precedentsOf s.graph x = formulaRefs ((s.cells x).formula)) :
    ∀ x, precedentsOf (applyEdit s c r).graph x =
      formulaRefs (((applyEdit s c r).cells x).formula) := by
  intro x
  simp only [applyEdit, runEdit]
  refine recalcLoopF_graphInv _ _ _ _ _ _ _ (fun y => ?_) x
  by_cases hy : y = c
  · subst hy
    rw [Function.update_same, evaluateCell_precedents_self]
    simp only
    rw [(evaluateCell_shape s.graph (mkLookup s.cells) y r).1]
  · rw [Function.update_noteq hy, evaluateCell_precedents_ne _ _ _ _ _ hy]
    exact h y

theorem reachable_recInv (s : EngineState) (h : Reachable s) :
    ∀ x, RecInv (s.cells x) := by
  induction h with
  | init =>
    intro x
    show RecInv ⟨"", "", "", none⟩
    unfold RecInv
    decide
  | step c r _ ih => exact applyEdit_recInv _ c r ih

theorem reachable_graphInv (s : EngineState) (h : Reachable s) :
    ∀ x, precedentsOf s.graph x = formulaRefs ((s.cells x).formula) := by
  induction h with
  | init => exact fun x => rfl
  | step c r _ ih => exact applyEdit_graphInv _ c r ih

/-! Lemmas for the recalculation loop: the processed list is
duplicate-free and avoids the seeded visited set, the loop's fuel is
never exhausted at the size `runEdit` passes, and cells already in the
visited set are never overwritten. -/

theorem dfsF_nodup (g : DepGraph) :
    ∀ (fuel : Nat) (stack res : List CellId), res.Nodup →
      (dfsF g fuel stack res).Nodup := by
  intro fuel
  induction fuel with
  | zero => intro stack res h; exact h
  | succ f ih =>
    intro stack res h
    match stack with
    | [] => exact h
    | d :: rest =>
      simp only [dfsF]
      split
      · exact ih _ _ h
      · rename_i hd
        refine ih _ _ ?_
        simp [List.nodup_append, h, hd]

theorem getAllDependents_nodup (g : DepGraph) (c : CellId) :
    (getAllDependents g c).Nodup :=
  dfsF_nodup g _ _ _ List.nodup_nil

theorem getAllDependents_length_le (g : DepGraph) (c : CellId) :
    (getAllDependents g c).length ≤ 100 := by
  have h := (getAllDependents_nodup g c).length_le_card
  rwa [cellId_card] at h

theorem recalcLoopF_processed (resolve : CellId → Option JsNum) :
    ∀ (fuel : Nat) (q : List CellId) (visited : Finset CellId)
      (cs : CellId → CellRec) (g : DepGraph) (acc : List CellId),
      ∃ delta,
        (recalcLoopF resolve fuel q visited cs g acc).processed =
          acc ++ delta ∧
        delta.Nodup ∧ ∀ x ∈ delta, x ∉ visited := by
  intro fuel
  induction fuel with
  | zero =>
    intro q visited cs g acc
    exact ⟨[], by simp [recalcLoopF], List.nodup_nil, by simp⟩
  | succ f ih =>
    intro q visited cs g acc
    match q with
    | [] => exact ⟨[], by simp [recalcLoopF], List.nodup_nil, by simp⟩
    | d :: rest =>
      simp only [recalcLoopF]
      split
      · exact ih _ _ _ _ _
      · rename_i hd
        split
        · obtain ⟨delta, h1, h2, h3⟩ := ih rest (insert d visited) cs g acc
          exact ⟨delta, h1, h2,
            fun x hx hv => h3 x hx (Finset.mem_insert_of_mem hv)⟩
        · obtain ⟨delta, h1, h2, h3⟩ :=
            ih (rest ++
              (getAllDependents (evaluateCell g resolve d (cs d).formula).1
                d).filter (fun x => decide (x ∉ insert d visited)))
              (insert d visited)
              (Function.update cs d
                ⟨(cs d).rawValue, (cs d).formula,
                  (evaluateCell g resolve d (cs d).formula).2.display,
                  (evaluateCell g resolve d (cs d).formula).2.error⟩)
              (evaluateCell g resolve d (cs d).formula).1 (acc ++ [d])
          refine ⟨d :: delta, ?_, ?_, ?_⟩
          · rw [h1]
            simp
          · rw [List.nodup_cons]
            exact ⟨fun hm => h3 d hm (Finset.mem_insert_self d visited), h2⟩
          · intro x hx
            rcases List.mem_cons.mp hx with hx | hx
            · subst hx
              exact hd
            · exact fun hv => h3 x hx (Finset.mem_insert_of_mem hv)

theorem recalcLoopF_completed (resolve : CellId → Option JsNum) :
    ∀ (fuel : Nat) (q : List CellId) (visited : Finset CellId)
      (cs : CellId → CellRec) (g : DepGraph) (acc : List CellId),
      q.length + 101 * (100 - visited.card) < fuel →
      (recalcLoopF resolve fuel q visited cs g acc).completed = true := by
  intro fuel
  induction fuel with
  | zero => intro q visited cs g acc h; omega
  | succ f ih =>
    intro q visited cs g acc h
    match q with
    | [] => rfl
    | d :: rest =>
      simp only [List.length_cons] at h
      simp only [recalcLoopF]
      split
      · apply ih
        omega
      · rename_i hd
        have hcard : visited.card < 100 := by
          have h1 : (insert d visited).card = visited.card + 1 :=
            Finset.card_insert_of_not_mem hd
          have h2 : (insert d visited).card ≤ 100 := by
            have h3 := Finset.card_le_univ (insert d visited)
            simpa [cellId_card] using h3
          omega
        split
        · apply ih
          rw [Finset.card_insert_of_not_mem hd]
          omega
        · apply ih
          rw [Finset.card_insert_of_not_mem hd]
          have hlen : ((getAllDependents
              (evaluateCell g resolve d (cs d).formula).1 d).filter
              (fun x => decide (x ∉ insert d visited))).length ≤ 100 := by
            calc ((getAllDependents
                (evaluateCell g resolve d (cs d).formula).1 d).filter
                (fun x => decide (x ∉ insert d visited))).length
                ≤ (getAllDependents
                    (evaluateCell g resolve d (cs d).formula).1 d).length :=
                  List.length_filter_le _ _
              _ ≤ 100 := getAllDependents_length_le _ _
          simp only [List.length_append]
          omega

theorem recalcLoopF_cells_visited (resolve : CellId → Option JsNum) :
    ∀ (fuel : Nat) (q : List CellId) (visited : Finset CellId)
      (cs : CellId → CellRec) (g : DepGraph) (acc : List CellId) (x : CellId),
      x ∈ visited →
      (recalcLoopF resolve fuel q visited cs g acc).cells x = cs x := by
  intro fuel
  induction fuel with
  | zero => intro q visited cs g acc x _; rfl
  | succ f ih =>
    intro q visited cs g acc x hx
    match q with
    | [] => rfl
    | d :: rest =>
      simp only [recalcLoopF]
      split
      · exact ih _ _ _ _ _ _ hx
      · rename_i hd
        have hxd : x ≠ d := fun he => hd (he ▸ hx)
        split
        · exact ih _ _ _ _ _ _ (Finset.mem_insert_of_mem hx)
        · rw [ih _ _ _ _ _ _ (Finset.mem_insert_of_mem hx),
            Function.update_noteq hxd]

/-- The record `applyEdit` commits for the edited cell: the raw input
together with the fields `evaluateCell` computed for it (the
recalculation loop never touches the edited cell, which seeds the
visited set). -/
theorem runEdit_cells_self (s : EngineState) (c : CellId) (raw : String) :
    (applyEdit s c raw).cells c =
      ⟨raw, (evaluateCell s.graph (mkLookup s.cells) c raw).2.formula,
        (evaluateCell s.graph (mkLookup s.cells) c raw).2.display,
        (evaluateCell s.graph (mkLookup s.cells) c raw).2.error⟩ := by
  simp only [applyEdit, runEdit]
  rw [recalcLoopF_cells_visited _ _ _ _ _ _ _ c (Finset.mem_singleton_self c)]
  exact Function.update_same _ _ _

/-! Lemmas for the `Invalid reference` path of the compiler. -/

theorem substRefs_first_fail (resolve : CellId → Option JsNum) :
    ∀ (rs : List CellId) (e : List Char) (r0 : CellId),
      rs.find? (fun r => (resolve r).isNone) = some r0 →
      substRefs resolve rs e =
        Except.error ("Invalid reference: " ++ cellIdStr r0) := by
  intro rs
  induction rs with
  | nil => intro e r0 h; simp at h
  | cons r rs ih =>
    intro e r0 h
    by_cases hr : (resolve r).isNone = true
    · simp only [List.find?, hr] at h
      injection h with h
      subst h
      have hrn : resolve r = none := Option.isNone_iff_eq_none.mp hr
      simp [substRefs, hrn]
    · rw [Bool.not_eq_true] at hr
      simp only [List.find?, hr] at h
      obtain ⟨v, hv⟩ : ∃ v, resolve r = some v := by
        cases hrv : resolve r with
        | none => rw [hrv] at hr; simp at hr
        | some v => exact ⟨v, rfl⟩
      clear hr
      rw [show substRefs resolve (r :: rs) e =
        substRefs resolve rs
          (replaceAll (cellIdStr r).data (jsNumToString v).data e) by
          simp [substRefs, hv]]
      exact ih _ _ h

theorem parse_invalid_ref (f : String) (resolve : CellId → Option JsNum)
    (r0 : CellId) (hf : isFormulaStr f = true)
    (hfind : (scanRefs (expressionOf f)).find?
      (fun r => (resolve r).isNone) = some r0) :
    parse f resolve =
      (JsVal.s "#ERROR", some ("Invalid reference: " ++ cellIdStr r0)) := by
  have hne : ¬((expressionOf f).isEmpty = true) := by
    intro he
    rw [List.isEmpty_iff] at he
    rw [he] at hfind
    simp [scanRefs] at hfind
  unfold parse
  rw [if_neg (by simp [hf]), if_neg hne,
    substRefs_first_fail resolve _ _ _ hfind]

theorem evaluateCell_invalid_ref (g : DepGraph)
    (resolve : CellId → Option JsNum) (c : CellId) (f : String) (r0 : CellId)
    (hf : isFormulaStr f = true)
    (hfind : (scanRefs (expressionOf f)).find?
      (fun r => (resolve r).isNone) = some r0)
    (hnc : detectCircularF (rebuildEdges g c f) 101 c ∅ = false) :
    (evaluateCell g resolve c f).2 =
      ⟨"#ERROR", f, some ("Invalid reference: " ++ cellIdStr r0)⟩ := by
  rw [evaluateCell_out, if_neg (by simp [hf]), if_neg (by simp [hnc]),
    parse_invalid_ref f resolve r0 hf hfind]
  rfl

/-! Fuel stability: the fuel parameters standing in for the unbounded
JS recursions are never load-bearing — above the measure that bounds
each recursion, every fuel value produces the same result, so the
concrete fuels passed at the call sites (`101` for `detectCircular`,
the computed bounds in `getAllDependents` and `runEdit`) model the JS
loops exactly. -/

theorem listAny_congr {l : List CellId} {p q : CellId → Bool}
    (h : ∀ a ∈ l, p a = q a) : l.any p = l.any q := by
  induction l with
  | nil => rfl
  | cons a t ih =>
    simp only [List.any_cons]
    rw [h a (List.mem_cons_self a t),
      ih (fun b hb => h b (List.mem_cons_of_mem a hb))]

theorem detectCircularF_fuel_stable (g : DepGraph) :
    ∀ (f1 f2 : Nat) (start : CellId) (visited : Finset CellId),
      100 - visited.card < f1 → 100 - visited.card < f2 →
      detectCircularF g f1 start visited =
        detectCircularF g f2 start visited := by
  intro f1
  induction f1 with
  | zero => intro f2 start visited h1 h2; omega
  | succ f ih =>
    intro f2 start visited h1 h2
    match f2 with
    | 0 => omega
    | f2' + 1 =>
      simp only [detectCircularF]
      split
      · rfl
      · rename_i hmem
        have hcardlt : visited.card < 100 := by
          have h3 := Finset.card_le_univ (insert start visited)
          rw [Finset.card_insert_of_not_mem hmem, cellId_card] at h3
          omega
        refine listAny_congr (fun dep _ => ih f2' dep (insert start visited)
          ?_ ?_) <;>
          rw [Finset.card_insert_of_not_mem hmem] <;> omega

/-- The fuel `evaluateCell` passes to the cycle check (`101`, from an
empty path set) is above the bound, so any sufficient fuel agrees. -/
theorem detectCircular_fuel_irrelevant (g : DepGraph) (c : CellId) (f : Nat)
    (hf : 100 < f) :
    detectCircularF g f c ∅ = detectCircularF g 101 c ∅ := by
  refine detectCircularF_fuel_stable g f 101 c ∅ ?_ ?_ <;>
    simp only [Finset.card_empty, Nat.sub_zero] <;> omega

theorem mapGet_length_le (m : List (CellId × List CellId)) (d : CellId) :
    ((mapGet m d).getD []).length ≤ (m.map (fun p => p.2.length)).sum := by
  induction m with
  | nil => simp [mapGet]
  | cons p ps ih =>
    by_cases h : p.1 = d
    · simp [mapGet, h]
    · simp only [mapGet, h, if_false, List.map_cons, List.sum_cons]
      omega

theorem getDependents_length_le_graphSize (g : DepGraph) (d : CellId) :
    (getDependents g d).length ≤ graphSize g :=
  mapGet_length_le g.graph d

theorem toFinset_append_singleton_card (res : List CellId) (d : CellId)
    (hd : d ∉ res) :
    (res ++ [d]).toFinset.card = res.toFinset.card + 1 := by
  have hset : (res ++ [d]).toFinset = insert d res.toFinset := by
    ext a
    simp [or_comm]
  rw [hset, Finset.card_insert_of_not_mem (by simpa using hd)]

theorem dfsF_fuel_stable (g : DepGraph) :
    ∀ (f1 f2 : Nat) (stack res : List CellId),
      stack.length + (graphSize g + 1) * (100 - res.toFinset.card) < f1 →
      stack.length + (graphSize g + 1) * (100 - res.toFinset.card) < f2 →
      dfsF g f1 stack res = dfsF g f2 stack res := by
  intro f1
  induction f1 with
  | zero => intro f2 stack res h1 h2; omega
  | succ f ih =>
    intro f2 stack res h1 h2
    match f2, stack with
    | 0, _ => omega
    | f2' + 1, [] => rfl
    | f2' + 1, d :: rest =>
      simp only [dfsF]
      split
      · apply ih
        · simp only [List.length_cons] at h1
          omega
        · simp only [List.length_cons] at h2
          omega
      · rename_i hd
        have hcardlt : res.toFinset.card < 100 := by
          have h3 := Finset.card_le_univ (res ++ [d]).toFinset
          rw [toFinset_append_singleton_card res d hd, cellId_card] at h3
          omega
        have hsplit : (graphSize g + 1) * (100 - res.toFinset.card) =
            (graphSize g + 1) * (100 - (res.toFinset.card + 1)) +
              (graphSize g + 1) := by
          have h4 : 100 - res.toFinset.card =
              (100 - (res.toFinset.card + 1)) + 1 := by omega
          rw [h4, Nat.mul_succ]
        have hdeps := getDependents_length_le_graphSize g d
        apply ih
        · simp only [List.length_append, List.length_cons] at h1 ⊢
          rw [toFinset_append_singleton_card res d hd]
          rw [hsplit] at h1
          omega
        · simp only [List.length_append, List.length_cons] at h2 ⊢
          rw [toFinset_append_singleton_card res d hd]
          rw [hsplit] at h2
          omega

/-- The fuel `getAllDependents` computes is above the bound, so the
transitive-dependents walk is fuel-independent. -/
theorem getAllDependents_fuel_irrelevant (g : DepGraph) (cell : CellId)
    (f : Nat)
    (hf : (getDependents g cell).length + (graphSize g + 1) * 100 < f) :
    dfsF g f (getDependents g cell) [] = getAllDependents g cell := by
  rw [show getAllDependents g cell =
    dfsF g ((getDependents g cell).length + (graphSize g + 1) * 101)
      (getDependents g cell) [] from rfl]
  have hsucc : (graphSize g + 1) * 101 =
      (graphSize g + 1) * 100 + (graphSize g + 1) := by
    rw [show (101 : Nat) = 100 + 1 from rfl, Nat.mul_add, Nat.mul_one]
  refine dfsF_fuel_stable g f _ _ _ ?_ ?_ <;>
    simp only [List.toFinset_nil, Finset.card_empty, Nat.sub_zero]
  · exact hf
  · rw [hsucc]
    omega

theorem recalcLoopF_fuel_stable (resolve : CellId → Option JsNum) :
    ∀ (f1 f2 : Nat) (q : List CellId) (visited : Finset CellId)
      (cs : CellId → CellRec) (g : DepGraph) (acc : List CellId),
      q.length + 101 * (100 - visited.card) < f1 →
      q.length + 101 * (100 - visited.card) < f2 →
      recalcLoopF resolve f1 q visited cs g acc =
        recalcLoopF resolve f2 q visited cs g acc := by
  intro f1
  induction f1 with
  | zero => intro f2 q visited cs g acc h1 h2; omega
  | succ f ih =>
    intro f2 q visited cs g acc h1 h2
    match f2, q with
    | 0, _ => omega
    | f2' + 1, [] => rfl
    | f2' + 1, d :: rest =>
      simp only [List.length_cons] at h1 h2
      simp only [recalcLoopF]
      split
      · apply ih <;> omega
      · rename_i hd
        have hcardlt : visited.card < 100 := by
          have h3 := Finset.card_le_univ (insert d visited)
          rw [Finset.card_insert_of_not_mem hd, cellId_card] at h3
          omega
        split
        · apply ih <;> rw [Finset.card_insert_of_not_mem hd] <;> omega
        · have hlen : ((getAllDependents
              (evaluateCell g resolve d (cs d).formula).1 d).filter
              (fun x => decide (x ∉ insert d visited))).length ≤ 100 := by
            calc ((getAllDependents
                (evaluateCell g resolve d (cs d).formula).1 d).filter
                (fun x => decide (x ∉ insert d visited))).length
                ≤ (getAllDependents
                    (evaluateCell g resolve d (cs d).formula).1 d).length :=
                  List.length_filter_le _ _
              _ ≤ 100 := getAllDependents_length_le _ _
          apply ih <;> rw [Finset.card_insert_of_not_mem hd] <;>
            simp only [List.length_append] <;> omega

/-! The claims. -/

/-- C1: the claim states that after the edits A1:=`5`, B1:=`=A1+3`,
C1:=`=B1*2`, editing A1 to `10` leaves B1 displaying `13` and C1
displaying `26`.  The code disagrees: inside `updateCell`'s `setCells`
updater, `getCellValue` closes over the *pre-edit* `cells` state, so
the recalculated dependents read A1's old value `5` and B1 stays `8`,
C1 stays `16` — contradicting the code's own on-screen example
("Try changing A1 to 10 → B1 updates to 13, C1 to 26").  This theorem
evaluates the engine at that failing input. -/
theorem c1_stale_recalc_values :
    ((applyEdit (applyEdit (applyEdit (applyEdit initState cA1 "5")
        cB1 "=A1+3") cC1 "=B1*2") cA1 "10").cells cB1).display = "8" ∧
    ((applyEdit (applyEdit (applyEdit (applyEdit initState cA1 "5")
        cB1 "=A1+3") cC1 "=B1*2") cA1 "10").cells cC1).display = "16" ∧
    ((applyEdit (applyEdit (applyEdit (applyEdit initState cA1 "5")
        cB1 "=A1+3") cC1 "=B1*2") cA1 "10").cells cB1).display ≠ "13" ∧
    ((applyEdit (applyEdit (applyEdit (applyEdit initState cA1 "5")
        cB1 "=A1+3") cC1 "=B1*2") cA1 "10").cells cC1).display ≠ "26" := by
  refine ⟨by decide, by decide, by decide, by decide⟩

/-- C2 counterexample: with B1 displaying `5` and B10 displaying `7`,
the formula `=B1+B10` does *not* evaluate to `12`: substitution is
plain global text replacement per reference in match order, so
replacing `B1` first rewrites the prefix of `B10`, yielding `5+50` and
the display `55`. -/
theorem c2_prefix_clobber_counterexample :
    ((applyEdit (applyEdit (applyEdit initState cB1 "5") cB10 "7")
        cC1 "=B1+B10").cells cC1).display = "55" ∧
    ((applyEdit (applyEdit (applyEdit initState cB1 "5") cB10 "7")
        cC1 "=B1+B10").cells cC1).display ≠ "12" := by
  refine ⟨by decide, by decide⟩

/-- C2 (amended): substitution replaces every occurrence of each
reference token in match order by plain text replacement; distinct
references whose identifiers do not share a prefix are each replaced by
their own value (`=A1+B2` with 5 and 7 displays `12`), while a
reference that is a textual prefix of a later one corrupts it
(`=B1+B10` with 5 and 7 displays `55`). -/
theorem c2_substitution_amended :
    ((applyEdit (applyEdit (applyEdit initState cA1 "5") cB2 "7")
        cC1 "=A1+B2").cells cC1).display = "12" ∧
    ((applyEdit (applyEdit (applyEdit initState cB1 "5") cB10 "7")
        cC1 "=B1+B10").cells cC1).display = "55" := by
  refine ⟨by decide, by decide⟩

/-- C3 counterexample: a literal (non-`=`) edit whose text is
`#ERROR` displays the sentinel with `errorState` *null*, violating the
claimed biconditional. -/
theorem c3_literal_sentinel_counterexample :
    ((applyEdit initState cA1 "#ERROR").cells cA1).display = "#ERROR" ∧
    ((applyEdit initState cA1 "#ERROR").cells cA1).error = none := by
  refine ⟨by decide, by decide⟩

/-- C3 (amended): in every reachable state, `errorState` is non-null
exactly when the cell's formula starts with `=` *and* its display is
`#ERROR` or `#CIRCULAR`; a literal cell always has null `errorState`,
even when its text is a sentinel string. -/
theorem c3_error_state_invariant (s : EngineState) (h : Reachable s)
    (x : CellId) :
    (s.cells x).error ≠ none ↔
      (isFormulaStr (s.cells x).formula = true ∧
        ((s.cells x).display = "#ERROR" ∨
          (s.cells x).display = "#CIRCULAR")) :=
  reachable_recInv s h x

/-- C3 witness: the invariant instantiated at the reachable state after
the edit A1:=`=` (an empty formula, displaying `#ERROR` with a
reason). -/
theorem c3_error_state_invariant_witness :
    ((applyEdit initState cA1 "=").cells cA1).error ≠ none ↔
      (isFormulaStr ((applyEdit initState cA1 "=").cells cA1).formula = true ∧
        (((applyEdit initState cA1 "=").cells cA1).display = "#ERROR" ∨
          ((applyEdit initState cA1 "=").cells cA1).display = "#CIRCULAR")) :=
  c3_error_state_invariant (applyEdit initState cA1 "=")
    (Reachable.step cA1 "=" Reachable.init) cA1

/-- C4: a directly self-referencing formula (A1:=`=A1+1`) yields
`#CIRCULAR` with reason `Circular reference detected`; a mutually
referencing pair (A1:=`=B1`, then B1:=`=A1`) yields `#CIRCULAR` with
that reason on both cells after the second edit — the cycle check runs
after the edited cell's edges are re-added and before any numeric
result is accepted, and the recalculation pass re-evaluates the partner
cell to `#CIRCULAR` as well. -/
theorem c4_circular_detection :
    ((applyEdit initState cA1 "=A1+1").cells cA1).display = "#CIRCULAR" ∧
    ((applyEdit initState cA1 "=A1+1").cells cA1).error =
      some "Circular reference detected" ∧
    ((applyEdit (applyEdit initState cA1 "=B1") cB1 "=A1").cells
      cA1).display = "#CIRCULAR" ∧
    ((applyEdit (applyEdit initState cA1 "=B1") cB1 "=A1").cells
      cA1).error = some "Circular reference detected" ∧
    ((applyEdit (applyEdit initState cA1 "=B1") cB1 "=A1").cells
      cB1).display = "#CIRCULAR" ∧
    ((applyEdit (applyEdit initState cA1 "=B1") cB1 "=A1").cells
      cB1).error = some "Circular reference detected" := by
  refine ⟨by decide, by decide, by decide, by decide, by decide, by decide⟩

/-- C5 counterexample: B1 is first made to display `#ERROR` (via the
empty formula `=`), then edited to `=B1` — a formula referencing a cell
(itself) that currently displays `#ERROR`.  The claim requires
`#ERROR`, but the cycle check takes priority and the cell displays
`#CIRCULAR`. -/
theorem c5_circular_priority_counterexample :
    ((applyEdit initState cB1 "=").cells cB1).display = "#ERROR" ∧
    ((applyEdit (applyEdit initState cB1 "=") cB1 "=B1").cells
      cB1).display = "#CIRCULAR" ∧
    ((applyEdit (applyEdit initState cB1 "=") cB1 "=B1").cells
      cB1).display ≠ "#ERROR" := by
  refine ⟨by decide, by decide, by decide⟩

/-- C5 (amended): if an edited formula contains a reference whose
resolution fails (the referenced cell's display is a sentinel, empty,
or has no parseable leading number — `mkLookup` returns `none`), and
the formula does not create a cycle, then the edited cell displays
`#ERROR` with a reason naming the first failing reference token.  When
a cycle is created, `#CIRCULAR` takes priority instead. -/
theorem c5_invalid_reference_amended (s : EngineState) (c : CellId)
    (raw : String) (r0 : CellId)
    (hf : isFormulaStr raw = true)
    (hfind : (scanRefs (expressionOf raw)).find?
      (fun r => (mkLookup s.cells r).isNone) = some r0)
    (hnc : detectCircularF (rebuildEdges s.graph c raw) 101 c ∅ = false) :
    ((applyEdit s c raw).cells c).display = "#ERROR" ∧
    ((applyEdit s c raw).cells c).error =
      some ("Invalid reference: " ++ cellIdStr r0) := by
  rw [runEdit_cells_self,
    evaluateCell_invalid_ref s.graph (mkLookup s.cells) c raw r0 hf hfind hnc]
  exact ⟨rfl, rfl⟩

/-- C5 witness: editing B1 to `=A1` while A1 is empty yields `#ERROR`
with reason `Invalid reference: A1`. -/
theorem c5_invalid_reference_amended_witness :
    ((applyEdit initState cB1 "=A1").cells cB1).display = "#ERROR" ∧
    ((applyEdit initState cB1 "=A1").cells cB1).error =
      some ("Invalid reference: " ++ cellIdStr cA1) :=
  c5_invalid_reference_amended initState cB1 "=A1" cA1 (by decide)
    (by decide) (by decide)

/-- C6: in every reachable state, every cell's precedent edge set
equals exactly the reference tokens extracted from its current formula
(no stale edges, no missing edges); and concretely, after editing C1
from `=A1+B1` down to `=A1`, a subsequent edit to B1 re-evaluates
nothing (its processed list is empty), so the cell that no longer
references B1 is not re-evaluated. -/
theorem c6_edge_exactness :
    (∀ s, Reachable s → ∀ x,
      precedentsOf s.graph x = formulaRefs ((s.cells x).formula)) ∧
    (runEdit (applyEdit (applyEdit (applyEdit (applyEdit initState cA1 "1")
      cB1 "2") cC1 "=A1+B1") cC1 "=A1") cB1 "7").processed = [] :=
  ⟨fun s h x => reachable_graphInv s h x, by decide⟩

/-- C6 witness: the invariant instantiated after the edit
C1:=`=A1+B1`, where C1's precedent set is exactly `[A1, B1]`. -/
theorem c6_edge_exactness_witness :
    precedentsOf (applyEdit initState cC1 "=A1+B1").graph cC1 =
      formulaRefs (((applyEdit initState cC1 "=A1+B1").cells cC1).formula) ∧
    formulaRefs (((applyEdit initState cC1 "=A1+B1").cells cC1).formula) =
      [cA1, cB1] :=
  ⟨c6_edge_exactness.1 (applyEdit initState cC1 "=A1+B1")
    (Reachable.step cC1 "=A1+B1" Reachable.init) cC1, by decide⟩

/-- C7: for every edit (from any state), the recalculation loop drains
its queue within the fuel `runEdit` provides (the `while` loop
terminates), the list of re-evaluated cells is duplicate-free (each
transitive dependent is re-evaluated at most once), the edited cell —
which seeds the visited set — is never re-evaluated by the loop, and
the pass is bounded by the 100-cell universe. -/
theorem c7_recalc_terminates_once (s : EngineState) (c : CellId)
    (raw : String) :
    (runEdit s c raw).completed = true ∧
    (runEdit s c raw).processed.Nodup ∧
    c ∉ (runEdit s c raw).processed ∧
    (runEdit s c raw).processed.length ≤ 100 := by
  simp only [runEdit]
  obtain ⟨delta, h1, h2, h3⟩ := recalcLoopF_processed (mkLookup s.cells)
    ((getAllDependents (evaluateCell s.graph (mkLookup s.cells) c raw).1
        c).length + 101 * 101)
    (getAllDependents (evaluateCell s.graph (mkLookup s.cells) c raw).1 c)
    {c}
    (Function.update s.cells c
      ⟨raw, (evaluateCell s.graph (mkLookup s.cells) c raw).2.formula,
        (evaluateCell s.graph (mkLookup s.cells) c raw).2.display,
        (evaluateCell s.graph (mkLookup s.cells) c raw).2.error⟩)
    (evaluateCell s.graph (mkLookup s.cells) c raw).1 []
  rw [h1]
  simp only [List.nil_append]
  refine ⟨?_, h2, ?_, ?_⟩
  · apply recalcLoopF_completed
    rw [Finset.card_singleton]
    omega
  · intro hmem
    exact h3 c hmem (Finset.mem_singleton_self c)
  · have h4 := h2.length_le_card
    rwa [cellId_card] at h4

/-- C8: the claim states `applyEdit` is idempotent.  The code
disagrees, through the same stale-closure defect as C1: from the state
A1=`5`, B1=`=A1+3` (showing `8`), C1=`=B1*2` (showing `16`), applying
the edit A1:=`10` once leaves B1 at `8` (computed from the pre-edit
snapshot), while applying the *same* edit a second time recomputes B1
from the once-updated snapshot and yields `13` — the two applications
produce different records. -/
theorem c8_not_idempotent :
    ((applyEdit (applyEdit (applyEdit (applyEdit initState cA1 "5")
        cB1 "=A1+3") cC1 "=B1*2") cA1 "10").cells cB1).display = "8" ∧
    ((applyEdit (applyEdit (applyEdit (applyEdit (applyEdit initState
        cA1 "5") cB1 "=A1+3") cC1 "=B1*2") cA1 "10") cA1 "10").cells
        cB1).display = "13" ∧
    (applyEdit (applyEdit (applyEdit (applyEdit (applyEdit initState
        cA1 "5") cB1 "=A1+3") cC1 "=B1*2") cA1 "10") cA1 "10").cells cB1 ≠
      (applyEdit (applyEdit (applyEdit (applyEdit initState cA1 "5")
        cB1 "=A1+3") cC1 "=B1*2") cA1 "10").cells cB1 := by
  refine ⟨by decide, by decide, by decide⟩

/-- C9: reference extraction matches the grammar anywhere in the text
and substitution splices the value into the surrounding characters:
with A1 displaying `5`, the input `=A11` extracts the single reference
A1 and displays `51` (digit concatenation) with no error. -/
theorem c9_embedded_reference_splice :
    scanRefs "=A11".data = [cA1] ∧
    ((applyEdit (applyEdit initState cA1 "5") cB2 "=A11").cells
      cB2).display = "51" ∧
    ((applyEdit (applyEdit initState cA1 "5") cB2 "=A11").cells
      cB2).error = none := by
  refine ⟨by decide, by decide, by decide⟩

/-- C10: edges are registered before compilation and retained when it
fails — after B1:=`=A1` with A1 empty, B1 shows `#ERROR` and the
B1-depends-on-A1 edge is present — and a later edit giving A1 the value
`5` does trigger re-evaluation of B1 (it is in the processed list).
But the claimed recovery does not happen: the re-evaluation resolves
A1 against the pre-edit snapshot (the stale closure of C1/C8), where A1
is still empty, so B1 recomputes to `#ERROR` instead of `5`. -/
theorem c10_no_recovery_on_dependent_edit :
    ((applyEdit initState cB1 "=A1").cells cB1).display = "#ERROR" ∧
    precedentsOf (applyEdit initState cB1 "=A1").graph cB1 = [cA1] ∧
    cB1 ∈ (runEdit (applyEdit initState cB1 "=A1") cA1 "5").processed ∧
    ((runEdit (applyEdit initState cB1 "=A1") cA1 "5").state.cells
      cB1).display = "#ERROR" ∧
    ((runEdit (applyEdit initState cB1 "=A1") cA1 "5").state.cells
      cB1).display ≠ "5" := by
  refine ⟨by decide, by decide, by decide, by decide, by decide⟩

end Spreadsheet
